import Mathlib

/-!
Shallow embedding of `scripts/retrieve_databundle_light.py` (PyPSA-Earth).

The bundle catalog is a Python dict keyed by bundle name; dicts preserve
insertion order, so a catalog is modelled as an insertion-ordered list of
`Bundle` records (names unique by the dict invariant where it matters).
The `enable` configuration dict is modelled as an association list from
option name to its truthiness.  Fallible Python code is modelled with
`Except PyErr`; external collaborators (network retrieval, the country
list normalizer) are passed in as oracles.
-/

namespace RetrieveDatabundle

/-- Python exception kinds that the embedded functions can raise. -/
inductive PyErr where
  | nameError
  | typeError
  | keyError
  | ioError
  | fetchError
  | configError
deriving DecidableEq

/-- One catalog entry (a value of the `databundles` dict).  `tutorial` and
`disable_by_opt` are optional YAML fields; `matched_countries` / `n_matched`
are the per-run annotation fields written by `get_best_bundles`. -/
structure Bundle where
  name : String
  countries : List String
  category : String
  tutorial : Option Bool := none
  disable_by_opt : Option (List (String × List String)) := none
  matched_countries : List String := []
  n_matched : Nat := 0
deriving DecidableEq

/-- The `config_enable` dict: option name to truthiness of its value. -/
abbrev Enable := List (String × Bool)

/-- Embeds `config_enable.get(optname, False)`. -/
def enableGet (e : Enable) (k : String) : Bool :=
  (List.lookup k e).getD false

/-- Embeds the membership test `"output" in config_enable`. -/
def enableHasOutput (e : Enable) : Bool :=
  (List.lookup "output" e).isSome

/-- The inner double loop of `_check_disabled_by_opt`: merge the lists,
appending each element not already present (first-occurrence order). -/
def dedupAppendAll (lists : List (List String)) : List String :=
  lists.foldl
    (fun acc touts =>
      touts.foldl (fun acc2 o => if acc2.contains o then acc2 else acc2 ++ [o]) acc)
    []

/-- Embeds `_check_disabled_by_opt(config_bundle, config_enable)`: returns the list
of disabled outputs; `["all"]` means the bundle is fully disabled.  (The
Python `list(set(all_disabled))` in the non-sentinel branch is represented by the
already-duplicate-free merged list; only equality with `["all"]` is ever
consumed, which does not depend on that branch's element order.) -/
def check_disabled_by_opt (b : Bundle) (e : Enable) : List String :=
  match b.disable_by_opt with
  | none => []
  | some disabled_config =>
    let disabled_objs :=
      disabled_config.filterMap fun p => if enableGet e p.1 then some p.2 else none
    let all_disabled := dedupAppendAll disabled_objs
    if all_disabled.contains "all" then ["all"]
    else if enableHasOutput e then all_disabled
    else []

/-- Insertion step of the sort: insert `x` into a list already in ascending key order, after
all elements of strictly smaller key and before the first of greater-or-equal
key.  Together with `stableSortBy` this is Python's stable ascending
`sorted(..., key=...)`. -/
def insSorted (key : α → Nat) (x : α) : List α → List α
  | [] => [x]
  | y :: ys => if key y < key x then y :: insSorted key x ys else x :: y :: ys

/-- Stable ascending sort by a numeric key (insertion sort: equal-key
elements keep their original relative order, as Python's `sorted` does). -/
def stableSortBy (key : α → Nat) : List α → List α
  | [] => []
  | x :: xs => insSorted key x (stableSortBy key xs)

/-- The `for d_val in dict_sort` loop of `get_best_bundles_by_category`:
`remaining` models the Python set `remaining_countries` (as a list whose
membership is what matters); a bundle is appended exactly when its country
set meets `remaining`, which then shrinks by that intersection. -/
def selectLoop : List Bundle → List String → List String
  | [], _ => []
  | b :: rest, remaining =>
    if (remaining.filter fun c => b.countries.contains c).isEmpty then
      selectLoop rest remaining
    else
      b.name :: selectLoop rest (remaining.filter fun c => !(b.countries.contains c))

/-- The candidate filter building `dict_n_matched`: same category, same
tutorial flag (absent field defaults to `False`), not fully disabled. -/
def candidateFilter (category : String) (tutorial : Bool) (e : Enable)
    (bundles : List Bundle) : List Bundle :=
  bundles.filter fun b =>
    b.category == category && b.tutorial.getD false == tutorial &&
      !(check_disabled_by_opt b e == ["all"])

/-- Embeds `get_best_bundles_by_category(country_list, category,
config_bundles, tutorial, config_enable)`. -/
def get_best_bundles_by_category (country_list : List String) (category : String)
    (config_bundles : List Bundle) (tutorial : Bool) (config_enable : Enable) :
    List String :=
  let dict_sort := stableSortBy (fun b => b.n_matched)
    (candidateFilter category tutorial config_enable config_bundles)
  selectLoop dict_sort country_list

/-- The annotation loop of `get_best_bundles`: write `matched_countries`
and `n_matched` into every bundle. -/
def annotate (countries : List String) (bundles : List Bundle) : List Bundle :=
  bundles.map fun b =>
    let mc := b.countries.filter fun c => countries.contains c
    { b with matched_countries := mc, n_matched := mc.length }

/-- Embeds `get_best_bundles(countries, config_bundles, tutorial,
config_enable)`, parameterised by `cats`, the enumeration order that Python's
`list(set([...category...]))` happens to produce (an arbitrary ordering of
the distinct category values). -/
def get_best_bundlesWith (cats : List String) (countries : List String)
    (config_bundles : List Bundle) (tutorial : Bool) (config_enable : Enable) :
    List String :=
  let annotated := annotate countries config_bundles
  cats.flatMap fun cat =>
    get_best_bundles_by_category countries cat annotated tutorial config_enable

/-- The distinct category values of the catalog, in first-occurrence order
(one concrete enumeration that `list(set(...))` can produce). -/
def categoriesOf (bundles : List Bundle) : List String :=
  (bundles.map Bundle.category).dedup

/-- Holds when `cats` is a possible result of `list(set(categories))`: an enumeration,
in some order, of the distinct category values of the catalog. -/
def IsCatEnum (cats : List String) (bundles : List Bundle) : Prop :=
  List.Perm cats (categoriesOf bundles)

instance (cats : List String) (bundles : List Bundle) :
    Decidable (IsCatEnum cats bundles) := by
  unfold IsCatEnum; infer_instance

/-! ### Catalog loader -/

/-- The argument of `load_databundle_config`, by Python runtime type:
a dict (already a catalog), a str path (together with what opening and
parsing it yields — `none` when `open`/`yaml.load`/the `databundles` key
lookup fails), or a value of any other type. -/
inductive DBInput where
  | dict (catalog : List Bundle)
  | path (loaded : Option (List Bundle))
  | other
deriving DecidableEq

/-- Embeds `load_databundle_config(config)`, with the external
`create_country_list` normalizer passed in as the pure oracle `norm`.
A non-str non-dict input is only logged (`logger.error`) and execution
falls through to the `for bundle_name in config` loop, which raises a
`TypeError` for a non-iterable value; no `ConfigError` exists in the code. -/
def load_databundle_config (norm : List String → List String) :
    DBInput → Except PyErr (List Bundle)
  | DBInput.dict catalog =>
    Except.ok (catalog.map fun b => { b with countries := norm b.countries })
  | DBInput.path none => Except.error PyErr.ioError
  | DBInput.path (some catalog) =>
    Except.ok (catalog.map fun b => { b with countries := norm b.countries })
  | DBInput.other => Except.error PyErr.typeError

/-! ### Retrieval functions -/

/-- The fields of a bundle config that `download_and_unzip_post` reads,
with `post` the `urls.post` dict (an insertion-ordered mapping that
contains the `url` entry next to the POST body parameters). -/
structure PostConfig where
  category : String
  destination : String
  unzip : Bool
  post : List (String × String)
deriving DecidableEq

/-- Embeds `download_and_unzip_post(config, ...)`.  The function mutates the
shared config: `url = postdata.pop("url")` removes the `url` entry from
`config["urls"]["post"]` itself, so the (possibly mutated) config is
returned next to the boolean result.  `fetch_ok` is the outcome oracle of
the external `progress_retrieve` + unzip (its exceptions propagate: the
`try/except` in this function is commented out in the source). -/
def download_and_unzip_post (fetch_ok : Bool) (config : PostConfig)
    (hot_run : Bool) : Except PyErr (Bool × PostConfig) :=
  match List.lookup "url" config.post with
  | none => Except.error PyErr.keyError
  | some _ =>
    let config' := { config with post := config.post.eraseP fun p => p.1 == "url" }
    if hot_run then
      if fetch_ok then Except.ok (true, config')
      else Except.error PyErr.fetchError
    else Except.ok (true, config')

/-- The fields of a bundle config that `download_and_unzip_gdrive` reads;
the url is kept as a character list. -/
structure GdriveConfig where
  category : String
  destination : String
  gdrive_url : List Char
deriving DecidableEq

/-- Embeds `re.split(r"/view|\\view", url, 1)`: find the first occurrence of
`/view` or `\view`; `some (pre, post)` splits the string around it,
`none` means no match (so the Python split has fewer than 2 parts). -/
def findView : List Char → Option (List Char × List Char)
  | [] => none
  | c :: rest =>
    if (c == '/' || c == '\\') && rest.take 4 == ['v', 'i', 'e', 'w'] then
      some ([], rest.drop 4)
    else
      match findView rest with
      | none => none
      | some pr => some (c :: pr.1, pr.2)

/-- Embeds `re.split(r"\\|/", s)`: split at every slash or backslash, keeping
empty pieces. -/
def splitSeps : List Char → List (List Char)
  | [] => [[]]
  | c :: rest =>
    if c == '/' || c == '\\' then [] :: splitSeps rest
    else
      match splitSeps rest with
      | [] => [[c]]
      | s :: ss => (c :: s) :: ss

/-- Embeds `download_and_unzip_gdrive(config, ..., hot_run)`.  `gdd_ok` is the
outcome oracle of the external google-drive download + unzip (exceptions
propagate, there is no `try` here).  In the cold-run `else` branch the
source evaluates `f"Host {host} not implemented"` where `host` is an
undefined name, raising `NameError` before `return False` is reached. -/
def download_and_unzip_gdrive (gdd_ok : Bool) (config : GdriveConfig)
    (hot_run : Bool) : Except PyErr Bool :=
  match findView config.gdrive_url with
  | none => Except.ok false
  | some partition_view =>
    if (splitSeps partition_view.1).length < 2 then Except.ok false
    else if hot_run then
      if gdd_ok then Except.ok true else Except.error PyErr.fetchError
    else Except.error PyErr.nameError

/-! ### Download orchestrator (the `__main__` loop over bundles and hosts) -/

/-- The outcome of one `download_and_unzip_{host}(...)` call: a returned
boolean, or a raised exception (including the `globals()` lookup failing). -/
inductive Outcome where
  | ok (b : Bool)
  | exn
deriving DecidableEq

/-- The `for host in host_list` loop for one bundle: `try` the attempt,
`except Exception` turns a raise into a non-success, and the loop breaks
as soon as `downloaded_bundle` is true.  Returns the final
`downloaded_bundle` flag together with the list of hosts attempted. -/
def tryHosts (attempt : String → Outcome) : List String → Bool × List String
  | [] => (false, [])
  | h :: rest =>
    match attempt h with
    | Outcome.ok true => (true, [h])
    | _ =>
      let r := tryHosts attempt rest
      (r.1, h :: r.2)

/-- The outer `for b_name in bundles_to_download` loop: every bundle is
processed (an all-sources failure is logged with `logger.error` and the
loop moves on); the report pairs each bundle with its success flag. -/
def runDownloads (attempt : String → String → Outcome)
    (hosts : String → List String) : List String → List (String × Bool)
  | [] => []
  | b :: rest => (b, (tryHosts (attempt b) (hosts b)).1) :: runDownloads attempt hosts rest

/-! ### Spec-side description of the per-category covering pass -/

/-- The covering pass as the spec words it: `remaining` is a genuine set;
for each candidate in the given order, `intersect` is the candidate's
country set met with `remaining`; exactly when it is non-empty the
candidate's id is appended and `intersect` is removed from `remaining`;
an empty intersection skips the candidate without stopping. -/
def specCover : List Bundle → Finset String → List String
  | [], _ => []
  | b :: rest, remaining =>
    if b.countries.toFinset ∩ remaining = ∅ then specCover rest remaining
    else b.name :: specCover rest (remaining \ (b.countries.toFinset ∩ remaining))

/-! ### Concrete bundles and catalogs used in counterexamples and witnesses -/

/-- Sample bundle: `common_africa` of the spec's sample scenario 1. -/
def common_africa : Bundle :=
  { name := "common_africa", countries := ["DZ", "EG", "MA"], category := "common",
    tutorial := some false }

/-- Sample bundle: `common_europe` of the spec's sample scenario 1. -/
def common_europe : Bundle :=
  { name := "common_europe", countries := ["DE", "FR"], category := "common",
    tutorial := some false }

/-- A bundle of a second category, used to exhibit the category-order
dependence of `get_best_bundles`. -/
def data_africa : Bundle :=
  { name := "data_africa", countries := ["DZ", "EG", "MA"], category := "data",
    tutorial := some false }






/-- Embeds `get_best_bundles` using the first-occurrence category enumeration (for
single-category catalogs this is the only possible enumeration). -/
def get_best_bundles (countries : List String) (config_bundles : List Bundle)
    (tutorial : Bool) (config_enable : Enable) : List String :=
  get_best_bundlesWith (categoriesOf config_bundles) countries config_bundles
    tutorial config_enable

/-- A bundle fully disabled whenever option `optA` is active. -/
def disabled_bundle_example : Bundle :=
  { name := "disabled_b", countries := ["MA"], category := "common",
    disable_by_opt := some [("optA", ["all"])] }

/-- The spec's description of the disabling rule: the union of the
disabled-output lists of the `disable_by_opt` entries whose option name is
active in the option set (a bundle without the field contributes nothing). -/
def activeDisabledUnion (b : Bundle) (e : Enable) : List String :=
  (b.disable_by_opt.getD []).flatMap fun p => if enableGet e p.1 then p.2 else []

/-- A throwaway bundle carrying only a `disable_by_opt` field, used to state
lemmas about the disable check. -/
def mkDisBundle (dc : List (String × List String)) : Bundle :=
  { name := "", countries := [], category := "", disable_by_opt := some dc }

/-- A post-source bundle config: `urls.post` holds the `url` entry next to
the POST body parameter `id`. -/
def post_config_example : PostConfig :=
  { category := "data", destination := ".", unzip := false,
    post := [("url", "https://x/y.zip"), ("id", "42")] }

/-- A gdrive-source bundle config whose url parses: it contains `/view` and
a path separator before it. -/
def gdrive_config_example : GdriveConfig :=
  { category := "common", destination := ".",
    gdrive_url := "https://drive.google.com/file/d/1dkW1wKBW/view?usp=sharing".data }

/-! ### Supporting lemmas -/

theorem contains_iff_mem (l : List String) (a : String) :
    l.contains a = true ↔ a ∈ l := by
  simp [List.contains, List.elem_iff]

theorem perm_insSorted (key : α → Nat) (x : α) (l : List α) :
    List.Perm (insSorted key x l) (x :: l) := by
  induction l with
  | nil => exact List.Perm.refl _
  | cons y ys ih =>
    simp only [insSorted]
    split
    · exact (ih.cons y).trans (List.Perm.swap x y ys)
    · exact List.Perm.refl _

theorem perm_stableSortBy (key : α → Nat) (l : List α) :
    List.Perm (stableSortBy key l) l := by
  induction l with
  | nil => exact List.Perm.refl _
  | cons x xs ih => exact (perm_insSorted key x _).trans (ih.cons x)

theorem pairwise_insSorted (key : α → Nat) (x : α) (l : List α)
    (h : l.Pairwise fun a b => key a ≤ key b) :
    (insSorted key x l).Pairwise fun a b => key a ≤ key b := by
  induction l with
  | nil => simp [insSorted]
  | cons y ys ih =>
    rcases List.pairwise_cons.mp h with ⟨hy, hys⟩
    simp only [insSorted]
    split
    next hlt =>
      refine List.pairwise_cons.mpr ⟨?_, ih hys⟩
      intro a ha
      rcases List.mem_cons.mp ((perm_insSorted key x ys).mem_iff.mp ha) with rfl | hmem
      · exact Nat.le_of_lt hlt
      · exact hy a hmem
    next hge =>
      refine List.pairwise_cons.mpr ⟨?_, h⟩
      intro a ha
      rcases List.mem_cons.mp ha with rfl | hmem
      · exact Nat.le_of_not_lt hge
      · exact Nat.le_trans (Nat.le_of_not_lt hge) (hy a hmem)

theorem pairwise_stableSortBy (key : α → Nat) (l : List α) :
    (stableSortBy key l).Pairwise fun a b => key a ≤ key b := by
  induction l with
  | nil => simp [stableSortBy]
  | cons x xs ih => exact pairwise_insSorted key x _ ih

theorem filter_isEmpty_iff_inter_empty (b : Bundle) (remaining : List String) :
    (remaining.filter fun c => b.countries.contains c).isEmpty = true
      ↔ b.countries.toFinset ∩ remaining.toFinset = ∅ := by
  rw [List.isEmpty_iff, List.filter_eq_nil_iff, Finset.eq_empty_iff_forall_not_mem]
  constructor
  · intro h c hc
    rcases Finset.mem_inter.mp hc with ⟨h1, h2⟩
    exact h c (List.mem_toFinset.mp h2) ((contains_iff_mem _ _).mpr (List.mem_toFinset.mp h1))
  · intro h c hc hcontains
    exact h c (Finset.mem_inter.mpr
      ⟨List.mem_toFinset.mpr ((contains_iff_mem _ _).mp hcontains), List.mem_toFinset.mpr hc⟩)

theorem filter_not_toFinset (b : Bundle) (remaining : List String) :
    (remaining.filter fun c => !(b.countries.contains c)).toFinset
      = remaining.toFinset \ (b.countries.toFinset ∩ remaining.toFinset) := by
  ext a
  constructor
  · intro ha
    have h := List.mem_filter.mp (List.mem_toFinset.mp ha)
    have h2 : ¬ a ∈ b.countries := by
      intro hmem
      rw [(contains_iff_mem b.countries a).mpr hmem] at h
      simp at h
    exact Finset.mem_sdiff.mpr ⟨List.mem_toFinset.mpr h.1,
      fun hc => h2 (List.mem_toFinset.mp (Finset.mem_inter.mp hc).1)⟩
  · intro ha
    rcases Finset.mem_sdiff.mp ha with ⟨h1, h2⟩
    have h3 : ¬ a ∈ b.countries := fun hmem =>
      h2 (Finset.mem_inter.mpr ⟨List.mem_toFinset.mpr hmem, h1⟩)
    refine List.mem_toFinset.mpr (List.mem_filter.mpr ⟨List.mem_toFinset.mp h1, ?_⟩)
    cases hcon : b.countries.contains a with
    | false => rfl
    | true => exact absurd ((contains_iff_mem _ _).mp hcon) h3

theorem selectLoop_eq_specCover (bundles : List Bundle) (remaining : List String) :
    selectLoop bundles remaining = specCover bundles remaining.toFinset := by
  induction bundles generalizing remaining with
  | nil => rfl
  | cons b rest ih =>
    simp only [selectLoop, specCover]
    by_cases hc : (remaining.filter fun c => b.countries.contains c).isEmpty = true
    · rw [if_pos hc, if_pos ((filter_isEmpty_iff_inter_empty b remaining).mp hc), ih]
    · rw [if_neg hc,
        if_neg (fun h => hc ((filter_isEmpty_iff_inter_empty b remaining).mpr h)),
        ih, filter_not_toFinset]

theorem mem_selectLoop {n : String} :
    ∀ (bundles : List Bundle) (remaining : List String),
      n ∈ selectLoop bundles remaining → ∃ b, b ∈ bundles ∧ b.name = n := by
  intro bundles
  induction bundles with
  | nil => intro remaining h; simp [selectLoop] at h
  | cons b rest ih =>
    intro remaining h
    simp only [selectLoop] at h
    split at h
    · rcases ih _ h with ⟨b', hb', hn⟩
      exact ⟨b', List.mem_cons_of_mem _ hb', hn⟩
    · rcases List.mem_cons.mp h with rfl | h2
      · exact ⟨b, List.mem_cons_self _ _, rfl⟩
      · rcases ih _ h2 with ⟨b', hb', hn⟩
        exact ⟨b', List.mem_cons_of_mem _ hb', hn⟩

theorem mem_annotate {b' : Bundle} {countries : List String} {bundles : List Bundle}
    (h : b' ∈ annotate countries bundles) :
    ∃ b, b ∈ bundles ∧ b'.name = b.name ∧ b'.category = b.category ∧
      b'.tutorial = b.tutorial ∧ b'.disable_by_opt = b.disable_by_opt := by
  rcases List.mem_map.mp h with ⟨b, hb, rfl⟩
  exact ⟨b, hb, rfl, rfl, rfl, rfl⟩

theorem annotate_map_name (countries : List String) (bundles : List Bundle) :
    (annotate countries bundles).map Bundle.name = bundles.map Bundle.name := by
  induction bundles with
  | nil => rfl
  | cons b bs ih => simp [annotate]

theorem check_disabled_congr {b b' : Bundle}
    (h : b'.disable_by_opt = b.disable_by_opt) (e : Enable) :
    check_disabled_by_opt b' e = check_disabled_by_opt b e := by
  simp [check_disabled_by_opt, h]

/-- Every name returned by `get_best_bundlesWith` is the name of a bundle
that survives the candidate filter of some category. -/
theorem mem_select_origin {cats countries : List String} {K : List Bundle}
    {t : Bool} {e : Enable} {n : String}
    (h : n ∈ get_best_bundlesWith cats countries K t e) :
    ∃ b', b' ∈ annotate countries K ∧ b'.name = n ∧
      b'.tutorial.getD false = t ∧ check_disabled_by_opt b' e ≠ ["all"] := by
  rcases List.mem_flatMap.mp h with ⟨cat, _, hmem⟩
  rcases mem_selectLoop _ _ hmem with ⟨b', hb', hname⟩
  have hfil : b' ∈ candidateFilter cat t e (annotate countries K) :=
    (perm_stableSortBy (fun b => b.n_matched) _).mem_iff.mp hb'
  rcases List.mem_filter.mp hfil with ⟨hmem', hpred⟩
  simp only [Bool.and_eq_true, beq_iff_eq, Bool.not_eq_true', beq_eq_false_iff_ne] at hpred
  exact ⟨b', hmem', hname, hpred.1.2, hpred.2⟩

theorem mem_foldl_dedupAppend (x : String) (outs : List String) :
    ∀ acc : List String,
      (x ∈ outs.foldl (fun acc2 o => if acc2.contains o then acc2 else acc2 ++ [o]) acc)
        ↔ x ∈ acc ∨ x ∈ outs := by
  induction outs with
  | nil => intro acc; simp
  | cons o os ih =>
    intro acc
    simp only [List.foldl_cons]
    by_cases hc : acc.contains o = true
    · rw [if_pos hc, ih]
      have ho : o ∈ acc := (contains_iff_mem _ _).mp hc
      constructor
      · rintro (h | h)
        · exact Or.inl h
        · exact Or.inr (List.mem_cons_of_mem _ h)
      · rintro (h | h)
        · exact Or.inl h
        · rcases List.mem_cons.mp h with rfl | h2
          · exact Or.inl ho
          · exact Or.inr h2
    · rw [if_neg hc, ih]
      simp only [List.mem_append, List.mem_singleton, List.mem_cons]
      tauto

theorem mem_dedupAppendAll (x : String) (lists : List (List String)) :
    x ∈ dedupAppendAll lists ↔ ∃ l, l ∈ lists ∧ x ∈ l := by
  have key : ∀ (ls : List (List String)) (acc : List String),
      (x ∈ ls.foldl
          (fun acc touts =>
            touts.foldl (fun acc2 o => if acc2.contains o then acc2 else acc2 ++ [o]) acc)
          acc)
        ↔ x ∈ acc ∨ ∃ l, l ∈ ls ∧ x ∈ l := by
    intro ls
    induction ls with
    | nil => intro acc; simp
    | cons l rest ih =>
      intro acc
      simp only [List.foldl_cons]
      rw [ih, mem_foldl_dedupAppend]
      constructor
      · rintro ((h | h) | ⟨l', hl', hx⟩)
        · exact Or.inl h
        · exact Or.inr ⟨l, List.mem_cons_self _ _, h⟩
        · exact Or.inr ⟨l', List.mem_cons_of_mem _ hl', hx⟩
      · rintro (h | ⟨l', hl', hx⟩)
        · exact Or.inl (Or.inl h)
        · rcases List.mem_cons.mp hl' with rfl | h2
          · exact Or.inl (Or.inr hx)
          · exact Or.inr ⟨l', h2, hx⟩
  rw [dedupAppendAll, key]
  simp

/-- Sentinel membership: `"all"` is in the merged `all_disabled` list iff it is in the union of
the active entries' output lists, for a bundle carrying the field. -/
theorem mem_merged_iff_union (dc : List (String × List String)) (e : Enable) (x : String) :
    (x ∈ dedupAppendAll (dc.filterMap fun p => if enableGet e p.1 then some p.2 else none))
      ↔ x ∈ activeDisabledUnion (mkDisBundle dc) e := by
  rw [mem_dedupAppendAll]
  simp only [activeDisabledUnion, mkDisBundle, Option.getD_some, List.mem_flatMap,
    List.mem_filterMap]
  constructor
  · rintro ⟨l, ⟨p, hp, hif⟩, hx⟩
    by_cases hen : enableGet e p.1 = true
    · rw [if_pos hen] at hif
      refine ⟨p, hp, ?_⟩
      rw [if_pos hen]
      cases hif
      exact hx
    · rw [if_neg hen] at hif
      cases hif
  · rintro ⟨p, hp, hx⟩
    by_cases hen : enableGet e p.1 = true
    · rw [if_pos hen] at hx
      exact ⟨p.2, ⟨p, hp, by rw [if_pos hen]⟩, hx⟩
    · rw [if_neg hen] at hx
      cases hx

/-- The fully-disabled verdict of `_check_disabled_by_opt` is exactly the
presence of the sentinel `"all"` in the union of active entries. -/
theorem check_disabled_eq_all_iff (b : Bundle) (e : Enable) :
    check_disabled_by_opt b e = ["all"] ↔ "all" ∈ activeDisabledUnion b e := by
  cases hdb : b.disable_by_opt with
  | none => simp [check_disabled_by_opt, activeDisabledUnion, hdb]
  | some dc =>
    have hunion := mem_merged_iff_union dc e "all"
    simp only [check_disabled_by_opt, hdb]
    have hhu : activeDisabledUnion b e = activeDisabledUnion (mkDisBundle dc) e := by
      simp [activeDisabledUnion, mkDisBundle, hdb]
    rw [hhu]
    by_cases hall :
        (dedupAppendAll (dc.filterMap fun p => if enableGet e p.1 then some p.2 else none)).contains
          "all" = true
    · rw [if_pos hall]
      simp only [true_iff]
      exact hunion.mp ((contains_iff_mem _ _).mp hall)
    · rw [if_neg hall]
      have hnot : ¬ "all" ∈ activeDisabledUnion (mkDisBundle dc) e := by
        intro hmem
        exact hall ((contains_iff_mem _ _).mpr (hunion.mpr hmem))
      by_cases hout : enableHasOutput e = true
      · rw [if_pos hout]
        constructor
        · intro heq
          exact absurd (hunion.mp (by rw [heq]; exact List.mem_singleton.mpr rfl)) hnot
        · intro hmem
          exact absurd hmem hnot
      · rw [if_neg hout]
        constructor
        · intro heq
          cases heq
        · intro hmem
          exact absurd hmem hnot

/-! ### Claim theorems -/

/-- C1: for every catalog, requested country list, tutorial mode and option
set, the per-category selection iterates the candidate bundles stably sorted
ascending by `n_matched` (least-covering first), and behaves as the covering
pass of the spec: starting from `remaining = set(requested_countries)`, each
candidate in that order is appended — with its intersection removed from
`remaining` — exactly when `intersect = countries ∩ remaining` is non-empty,
and is skipped without stopping when it is empty. -/
theorem best_bundles_by_category_covering (country_list : List String)
    (category : String) (config_bundles : List Bundle) (tutorial : Bool)
    (config_enable : Enable) :
    List.Perm
        (stableSortBy (fun b => b.n_matched)
          (candidateFilter category tutorial config_enable config_bundles))
        (candidateFilter category tutorial config_enable config_bundles)
    ∧ (stableSortBy (fun b => b.n_matched)
          (candidateFilter category tutorial config_enable config_bundles)).Pairwise
        (fun a b => a.n_matched ≤ b.n_matched)
    ∧ get_best_bundles_by_category country_list category config_bundles tutorial
          config_enable
        = specCover
            (stableSortBy (fun b => b.n_matched)
              (candidateFilter category tutorial config_enable config_bundles))
            country_list.toFinset :=
  ⟨perm_stableSortBy _ _, pairwise_stableSortBy _ _,
    selectLoop_eq_specCover _ country_list⟩

/-- C2 counterexample: the tie-break is not lexicographic by bundle id.  With
the spec's two sample bundles listed in the catalog in the order
`common_europe`, `common_africa` (both match exactly one of the requested
countries `MA`, `FR`), the selection returns them in catalog insertion order,
not in the claimed lexicographic order `[common_africa, common_europe]`. -/
theorem tie_break_not_lexicographic :
    get_best_bundles ["MA", "FR"] [common_europe, common_africa] false []
      = ["common_europe", "common_africa"]
    ∧ ["common_europe", "common_africa"] ≠ ["common_africa", "common_europe"] := by
  constructor
  · rfl
  · decide

/-- C2 amended: when two candidates tie on `n_matched`, the stable sort keeps
them in catalog insertion order (there is no secondary bundle-id key): for
the sample catalog listed `common_africa` first the result is
`[common_africa, common_europe]`, and listed `common_europe` first it is
`[common_europe, common_africa]`, in both cases with `n_matched` tied at 1. -/
theorem tie_break_insertion_order :
    ((annotate ["MA", "FR"] [common_africa, common_europe]).map
        fun b => b.n_matched) = [1, 1]
    ∧ get_best_bundles ["MA", "FR"] [common_africa, common_europe] false []
        = ["common_africa", "common_europe"]
    ∧ get_best_bundles ["MA", "FR"] [common_europe, common_africa] false []
        = ["common_europe", "common_africa"] := by
  refine ⟨rfl, rfl, rfl⟩

/-- C3 counterexample: the output of `get_best_bundles` depends on the
iteration order over the set of distinct category values (Python's
`list(set(...))`): two valid enumerations of the same two categories give
differently ordered results on the same catalog and inputs. -/
theorem select_depends_on_category_order :
    IsCatEnum ["common", "data"] [common_africa, data_africa]
    ∧ IsCatEnum ["data", "common"] [common_africa, data_africa]
    ∧ get_best_bundlesWith ["common", "data"] ["MA"] [common_africa, data_africa]
          false []
        ≠ get_best_bundlesWith ["data", "common"] ["MA"] [common_africa, data_africa]
          false [] := by
  refine ⟨by decide, by decide, by decide⟩

/-- C3 amended: `select` is a pure function of its inputs together with the
category enumeration order, so two calls agree once that order is fixed; but
the order of the output does depend on the (unordered) category iteration:
across any two enumerations of the distinct categories the results are only
guaranteed to be permutations of each other. -/
theorem select_perm_of_category_enums (cats1 cats2 countries : List String)
    (K : List Bundle) (t : Bool) (e : Enable) (h : List.Perm cats1 cats2) :
    List.Perm (get_best_bundlesWith cats1 countries K t e)
      (get_best_bundlesWith cats2 countries K t e) :=
  h.flatMap_right _

/-- Witness for the C3 amended theorem at a concrete permutation. -/
theorem select_perm_of_category_enums_witness :
    List.Perm
      (get_best_bundlesWith ["common", "data"] ["MA"] [common_africa, data_africa]
        false [])
      (get_best_bundlesWith ["data", "common"] ["MA"] [common_africa, data_africa]
        false []) :=
  select_perm_of_category_enums ["common", "data"] ["data", "common"] ["MA"]
    [common_africa, data_africa] false [] (by decide)

/-- C4: the selection returns no bundle whose tutorial flag differs from the
requested mode: every returned id names a catalog bundle whose `tutorial`
field — with an absent field counting as `false` — equals `t` exactly. -/
theorem select_respects_tutorial (cats countries : List String) (K : List Bundle)
    (t : Bool) (e : Enable) (n : String)
    (h : n ∈ get_best_bundlesWith cats countries K t e) :
    ∃ b, b ∈ K ∧ b.name = n ∧ b.tutorial.getD false = t := by
  rcases mem_select_origin h with ⟨b', hb', hname, htut, _⟩
  rcases mem_annotate hb' with ⟨b, hb, hn, _, ht, _⟩
  exact ⟨b, hb, by rw [← hn, hname], by rw [← ht, htut]⟩

/-- Witness for C4 at a concrete catalog and selection. -/
theorem select_respects_tutorial_witness :
    ∃ b, b ∈ [common_africa] ∧ b.name = "common_africa"
      ∧ b.tutorial.getD false = false :=
  select_respects_tutorial ["common"] ["MA"] [common_africa] false []
    "common_africa" (by decide)

/-- C5: a bundle is fully disabled exactly when the literal `"all"` appears
in the union of the disabled-output lists of its `disable_by_opt` entries
whose option is active; a fully disabled bundle never appears in any
selection result regardless of country overlap; and a bundle lacking the
field is never disabled (the check totals to `[]` without error). -/
theorem disabled_bundle_semantics :
    (∀ (b : Bundle) (e : Enable),
        check_disabled_by_opt b e = ["all"] ↔ "all" ∈ activeDisabledUnion b e)
    ∧ (∀ (cats countries : List String) (K : List Bundle) (t : Bool) (e : Enable)
          (b : Bundle),
        (K.map Bundle.name).Nodup → b ∈ K →
          check_disabled_by_opt b e = ["all"] →
            b.name ∉ get_best_bundlesWith cats countries K t e)
    ∧ (∀ (b : Bundle) (e : Enable),
        b.disable_by_opt = none → check_disabled_by_opt b e = []) := by
  refine ⟨check_disabled_eq_all_iff, ?_, ?_⟩
  · intro cats countries K t e b hnd hb hdis hmem
    rcases mem_select_origin hmem with ⟨b', hb', hname, _, hnotdis⟩
    rcases mem_annotate hb' with ⟨b0, hb0, hn0, _, _, hd0⟩
    have hb0name : b0.name = b.name := by rw [← hn0, hname]
    have hbb0 : b0 = b := by
      exact List.inj_on_of_nodup_map hnd hb0 hb hb0name
    have : check_disabled_by_opt b' e = ["all"] := by
      rw [check_disabled_congr hd0 e, hbb0, hdis]
    exact hnotdis this
  · intro b e hnone
    simp [check_disabled_by_opt, hnone]

/-- Witness for C5 at a concrete disabled bundle and option set. -/
theorem disabled_bundle_semantics_witness :
    (check_disabled_by_opt disabled_bundle_example [("optA", true)] = ["all"]
      ↔ "all" ∈ activeDisabledUnion disabled_bundle_example [("optA", true)])
    ∧ "disabled_b" ∉ get_best_bundlesWith ["common"] ["MA"]
        [disabled_bundle_example] false [("optA", true)]
    ∧ check_disabled_by_opt common_africa [("optA", true)] = [] :=
  ⟨disabled_bundle_semantics.1 disabled_bundle_example [("optA", true)],
   disabled_bundle_semantics.2.1 ["common"] ["MA"] [disabled_bundle_example] false
     [("optA", true)] disabled_bundle_example (by decide) (by decide) (by decide),
   disabled_bundle_semantics.2.2 common_africa [("optA", true)] rfl⟩

/-- C6: with an empty requested country list the selection returns the empty
list for every catalog, tutorial mode, option set and category enumeration
(every category contributes nothing): a valid outcome, not an error. -/
theorem select_empty_countries (cats : List String) (K : List Bundle) (t : Bool)
    (e : Enable) :
    get_best_bundlesWith cats [] K t e = [] := by
  have hloop : ∀ bundles : List Bundle, selectLoop bundles [] = [] := by
    intro bundles
    induction bundles with
    | nil => rfl
    | cons b rest ih => simp [selectLoop, ih]
  unfold get_best_bundlesWith
  induction cats with
  | nil => rfl
  | cons c cs ih =>
    simp only [List.flatMap_cons, ih]
    simp [get_best_bundles_by_category, hloop]

/-- C7 counterexample: on an input that is neither a mapping nor a path
string (a non-iterable value such as an `int`), the loader does not fail
with a `ConfigError`. -/
theorem loader_not_configError :
    load_databundle_config id DBInput.other ≠ Except.error PyErr.configError := by
  intro h
  rw [load_databundle_config] at h
  cases h

/-- C7 amended: no `ConfigError` exists in the code; on an input that is
neither a mapping nor a path string the loader only logs an error and falls
through, so the subsequent iteration over the input raises a generic
`TypeError` — the failure is still immediate and unretried, but it is a
`TypeError`, not a `ConfigError`. -/
theorem loader_bad_input_raises_typeError :
    load_databundle_config id DBInput.other = Except.error PyErr.typeError := rfl

/-- C8: for each selected bundle the orchestrator tries its sources in
declared order: a raised fault from one attempt is caught and only fails
that attempt (the loop proceeds exactly as it does past a `False` return);
the per-bundle loop stops at the first successful source, attempting nothing
after it; and a bundle whose sources all fail is marked failed while
processing continues with the remaining bundles. -/
theorem orchestrator_fallback_policy :
    (∀ (attempt : String → Outcome) (h : String) (rest : List String),
        attempt h = Outcome.exn →
          tryHosts attempt (h :: rest)
            = ((tryHosts attempt rest).1, h :: (tryHosts attempt rest).2))
    ∧ (∀ (attempt : String → Outcome) (h : String) (rest : List String),
        attempt h = Outcome.ok true → tryHosts attempt (h :: rest) = (true, [h]))
    ∧ (∀ (attempt : String → String → Outcome) (hosts : String → List String)
          (b : String) (rest : List String),
        (tryHosts (attempt b) (hosts b)).1 = false →
          runDownloads attempt hosts (b :: rest)
            = (b, false) :: runDownloads attempt hosts rest) := by
  refine ⟨?_, ?_, ?_⟩
  · intro attempt h rest hexn
    simp [tryHosts, hexn]
  · intro attempt h rest hok
    simp [tryHosts, hok]
  · intro attempt hosts b rest hfail
    simp [runDownloads, hfail]

/-- Witness for C8 at concrete hosts and bundles. -/
theorem orchestrator_fallback_policy_witness :
    tryHosts (fun _ => Outcome.exn) ["zenodo", "gdrive"]
      = ((tryHosts (fun _ => Outcome.exn) ["gdrive"]).1,
          "zenodo" :: (tryHosts (fun _ => Outcome.exn) ["gdrive"]).2)
    ∧ tryHosts (fun _ => Outcome.ok true) ["zenodo", "gdrive"] = (true, ["zenodo"])
    ∧ runDownloads (fun _ _ => Outcome.exn) (fun _ => ["zenodo"]) ["b1", "b2"]
        = ("b1", false) :: runDownloads (fun _ _ => Outcome.exn) (fun _ => ["zenodo"]) ["b2"] :=
  ⟨orchestrator_fallback_policy.1 (fun _ => Outcome.exn) "zenodo" ["gdrive"] rfl,
   orchestrator_fallback_policy.2.1 (fun _ => Outcome.ok true) "zenodo" ["gdrive"] rfl,
   orchestrator_fallback_policy.2.2 (fun _ _ => Outcome.exn) (fun _ => ["zenodo"])
     "b1" ["b2"] rfl⟩

/-- C9 (code bug): even a cold run of `download_and_unzip_post` mutates the
bundle record: `postdata.pop("url")` removes the `url` entry from the
bundle's `urls.post` mapping, so the mapping is not left intact for a later
attempt — contradicting the read-only-after-load lifecycle. -/
theorem post_pop_mutates_config :
    download_and_unzip_post false post_config_example false
      = Except.ok (true, { post_config_example with post := [("id", "42")] })
    ∧ [("id", "42")] ≠ post_config_example.post
    ∧ List.lookup "url" [("id", "42")] = none := by
  refine ⟨rfl, by decide, rfl⟩

/-- C10: for every bundle config whose gdrive url parses (it contains
`/view` or `\view`, and a separator occurs before it), a cold run
(`hot_run=False`) of `download_and_unzip_gdrive` never returns a boolean:
the cold branch evaluates the undefined name `host` and raises `NameError`. -/
theorem gdrive_cold_run_raises (gdd_ok : Bool) (config : GdriveConfig)
    (pre suf : List Char) (hview : findView config.gdrive_url = some (pre, suf))
    (hsep : ¬ (splitSeps pre).length < 2) :
    download_and_unzip_gdrive gdd_ok config false = Except.error PyErr.nameError := by
  simp [download_and_unzip_gdrive, hview, hsep]

/-- Witness for C10 at a concrete parsing gdrive url. -/
theorem gdrive_cold_run_raises_witness :
    download_and_unzip_gdrive true gdrive_config_example false
      = Except.error PyErr.nameError :=
  gdrive_cold_run_raises true gdrive_config_example
    "https://drive.google.com/file/d/1dkW1wKBW".data "?usp=sharing".data
    (by decide) (by decide)

end RetrieveDatabundle
